import Mathlib

/-!
Shallow embedding of the retrieval/filtering engine of the
shakespeare_poet_agent repository: the quote database adapter
(src/quote_database.py), the session tracker (src/session_manager.py)
and the retrieval engine (src/quote_selector.py), together with proofs
of the testable properties stated for them.

Conventions of the embedding:
* Python `str` is Lean `String`; `str.split(',')` and `','.join(xs)`
  are embedded at the character-list level (`splitComma`, `joinComma`),
  matching Python semantics (`''.split(',') == ['']`, `','.join([]) == ''`).
* Python dicts that act as string-keyed records become association
  lists `List (String × String)`; `d.get(k, default)` is
  `(List.lookup k d).getD default`.
* Python sets of ids become `Finset String`.
* Floating-point vector distances never enter any arithmetic in the
  verified code paths (only comparisons), so distances are modelled
  as rationals.
* `datetime.now()` is an environment input: functions that stamp a
  record take the timestamp as an explicit argument.
* Optional parameters defaulting to `None` where only truthiness is
  tested (e.g. the `emotional_tone` filter list, where `None` and `[]`
  behave identically) are modelled as plain lists with `[]` for the
  absent case; scalar string filters distinguish `none` from `some ""`
  only in that both are falsy, which the embedding tests explicitly.
-/

/-! ## Comma join / split (Python `','.join` and `str.split(',')`) -/

/-- Embedding of Python `','.join(strs)`: intercalate the character `,`
between the character lists of the joined strings. -/
def joinComma (l : List String) : String :=
  ⟨List.intercalate [','] (l.map String.data)⟩

/-- Embedding of Python `s.split(',')`: split the character list of `s`
on every occurrence of `,` (no collapsing; the empty string splits to
the singleton list containing the empty string). -/
def splitComma (s : String) : List String :=
  (s.data.splitOn ',').map (fun cs => ⟨cs⟩)

/-! ## quote_database.py -/

/-- A metadata value appearing in a chunk dictionary: a scalar (already
rendered through Python `str`, as `_prepare_metadata` does), a list of
strings, or Python `None` (dropped by `_prepare_metadata`). -/
inductive MetaValue where
  | str (s : String)
  | list (l : List String)
  | nullv
  deriving DecidableEq

/-- A chunk record handed to `QuoteDatabase.add_chunks`: the `chunk_id`
and `embedding` entries (absent when the dict lacks the key), the
`chunk_text` entry, and the remaining metadata items in order. -/
structure Chunk where
  chunk_id : Option String
  embedding : Option (List ℚ)
  chunk_text : String
  fields : List (String × MetaValue)
  deriving DecidableEq

/-- `QuoteDatabase._prepare_metadata`: drop `embedding` and `chunk_id`
(kept outside `fields` in this embedding), join list values with commas,
keep scalar values as their string rendering, drop `None` values. -/
def prepare_metadata (fields : List (String × MetaValue)) : List (String × String) :=
  fields.filterMap (fun kv =>
    match kv.2 with
    | MetaValue.str s => some (kv.1, s)
    | MetaValue.list l => some (kv.1, joinComma l)
    | MetaValue.nullv => none)

/-- The four parallel lists that `add_chunks` accumulates and passes to
`collection.add` (the write happens iff `ids` is non-empty). -/
structure AddAcc where
  ids : List String
  embeddings : List (List ℚ)
  documents : List String
  metadatas : List (List (String × String))
  deriving DecidableEq

/-- The loop body of `QuoteDatabase.add_chunks`: skip a chunk whose
`chunk_id` is falsy (`None` or empty) or whose `embedding` is falsy
(`None` or empty), otherwise append to the four parallel lists.
In the source each skip only prints a warning; no error is raised. -/
def addChunkStep (acc : AddAcc) (c : Chunk) : AddAcc :=
  match c.chunk_id with
  | none => acc
  | some cid =>
    if cid = "" then acc
    else
      match c.embedding with
      | none => acc
      | some emb =>
        if emb = [] then acc
        else
          { ids := acc.ids ++ [cid]
            embeddings := acc.embeddings ++ [emb]
            documents := acc.documents ++ [c.chunk_text]
            metadatas := acc.metadatas ++
              [prepare_metadata (("chunk_text", MetaValue.str c.chunk_text) :: c.fields)] }

/-- `QuoteDatabase.add_chunks`: fold the per-chunk step over the batch,
starting from four empty lists. The resulting `ids` list is exactly the
set of ids written to the store (nothing is written when it is empty). -/
def add_chunks (chunks : List Chunk) : AddAcc :=
  chunks.foldl addChunkStep { ids := [], embeddings := [], documents := [], metadatas := [] }

/-- Truthiness test a chunk must pass to be inserted by `add_chunks`:
`chunk.get('chunk_id')` and `chunk.get('embedding')` are both truthy. -/
def chunkTruthy (c : Chunk) : Bool :=
  decide (c.chunk_id.getD "" ≠ "") && decide (c.embedding.getD [] ≠ [])

/-! ## session_manager.py -/

/-- One entry of `usage_history`: the chunk id, the `datetime.now()`
timestamp string, and the caller-supplied metadata dict. -/
structure UsageRecord where
  chunk_id : String
  timestamp : String
  metadata : List (String × String)
  deriving DecidableEq

/-- The mutable state of a `SessionManager`. -/
structure SessionState where
  session_id : String
  used_chunk_ids : Finset String
  usage_history : List UsageRecord
  deriving DecidableEq

/-- `SessionManager.__init__`: empty used set, empty history. -/
def freshSession (sid : String) : SessionState :=
  { session_id := sid, used_chunk_ids := ∅, usage_history := [] }

/-- `SessionManager.mark_used`: add the id to `used_chunk_ids` and
append a usage record (`ts` is the `datetime.now()` value, supplied by
the environment; `md` is the caller metadata, `{}` when absent). -/
def mark_used (s : SessionState) (cid : String) (ts : String)
    (md : List (String × String)) : SessionState :=
  { s with
    used_chunk_ids := insert cid s.used_chunk_ids
    usage_history := s.usage_history ++ [{ chunk_id := cid, timestamp := ts, metadata := md }] }

/-- `SessionManager.is_used`. -/
def is_used (s : SessionState) (cid : String) : Bool :=
  decide (cid ∈ s.used_chunk_ids)

/-- Enumeration of a Python set of strings as a list (`list(someset)`):
the iteration order of a Python set is unspecified, so the embedding
fixes the deterministic lexicographic enumeration. -/
def setToList (s : Finset String) : List String :=
  s.sort (fun a b => a ≤ b)

/-- `SessionManager.get_exclusion_list`: `list(self.used_chunk_ids)`. -/
def get_exclusion_list (s : SessionState) : List String :=
  setToList s.used_chunk_ids

/-- `SessionManager.reset`: clear both the used set and the history. -/
def reset (s : SessionState) : SessionState :=
  { s with used_chunk_ids := ∅, usage_history := [] }

/-- The JSON object written by `save_session` / read by `load_session`.
Fields are optional because `load_session` reads each with
`session_data.get(key, default)`. -/
structure SessionData where
  session_id : Option String
  used_chunk_ids : Option (List String)
  usage_history : Option (List UsageRecord)
  usage_count : Option Nat
  deriving DecidableEq

/-- `SessionManager.save_session`: serialize
`{session_id, used_chunk_ids: list(set), usage_history, usage_count}`. -/
def save_session (s : SessionState) : SessionData :=
  { session_id := some s.session_id
    used_chunk_ids := some (setToList s.used_chunk_ids)
    usage_history := some s.usage_history
    usage_count := some s.used_chunk_ids.card }

/-- `SessionManager.load_session`: replace the state from the file,
falling back to the current `session_id` and to empty collections when
a key is missing. -/
def load_session (s : SessionState) (d : SessionData) : SessionState :=
  { session_id := d.session_id.getD s.session_id
    used_chunk_ids := (d.used_chunk_ids.getD []).toFinset
    usage_history := d.usage_history.getD [] }

/-- `SessionManager.merge_session`: union of used sets, concatenation
of histories (self first). -/
def merge_session (s other : SessionState) : SessionState :=
  { s with
    used_chunk_ids := s.used_chunk_ids ∪ other.used_chunk_ids
    usage_history := s.usage_history ++ other.usage_history }

/-- The documented tracker invariant: `used_chunk_ids` is exactly the
set of distinct ids appearing in `usage_history`. -/
def SessionInvariant (s : SessionState) : Prop :=
  s.used_chunk_ids = (s.usage_history.map UsageRecord.chunk_id).toFinset

/-- Session states reachable from a fresh session by the tracker
operations; `merge_session` takes another session satisfying the
invariant, and `load_session` consumes a file written by `save_session`
of a session satisfying the invariant. -/
inductive ReachableSession : SessionState → Prop where
  | fresh (sid : String) : ReachableSession (freshSession sid)
  | mark (s : SessionState) (cid ts : String) (md : List (String × String)) :
      ReachableSession s → ReachableSession (mark_used s cid ts md)
  | reset_step (s : SessionState) :
      ReachableSession s → ReachableSession (reset s)
  | merge_step (s other : SessionState) :
      ReachableSession s → SessionInvariant other →
      ReachableSession (merge_session s other)
  | save_load (s t : SessionState) :
      ReachableSession s → SessionInvariant t →
      ReachableSession (load_session s (save_session t))

/-! ## quote_selector.py -/

/-- One formatted result row as produced by `query_by_text` and consumed
by the selector: id, document text, prepared metadata, vector distance. -/
structure Result where
  chunk_id : String
  chunk_text : String
  metadata : List (String × String)
  distance : ℚ
  deriving DecidableEq

/-- The argument record of `get_shakespeare_quote`, with the source's
defaults (`None` list/scalar parameters are `[]` / `none`). -/
structure QuoteArgs where
  semantic_query : String
  character_type : List String := []
  emotional_tone : List String := []
  themes : List String := []
  context_type : Option String := none
  chunk_type : Option String := none
  formality_level : Option String := none
  play_title : Option String := none
  exclude_chunk_ids : List String := []
  max_results : Nat := 5
  deriving DecidableEq

/-- `metadata.get(field, '').split(',')` as used by the post-filter. -/
def resultFieldValues (md : List (String × String)) (field : String) : List String :=
  splitComma ((List.lookup field md).getD "")

/-- The keep decision of the loop body of
`QuoteSelector._post_filter_results` for one candidate: not excluded,
and (when a filter list is truthy) at least one requested value occurs
in the comma-split of the corresponding metadata field. -/
def keepResult (all_exclusions : Finset String)
    (emotional_tone themes : List String) (r : Result) : Bool :=
  decide (r.chunk_id ∉ all_exclusions) &&
  (emotional_tone.isEmpty ||
    emotional_tone.any (fun e => decide (e ∈ resultFieldValues r.metadata "emotional_tone"))) &&
  (themes.isEmpty ||
    themes.any (fun t => decide (t ∈ resultFieldValues r.metadata "themes")))

/-- `QuoteSelector._post_filter_results`: build the exclusion set as
`set(session.get_exclusion_list())` updated with the caller's
`exclude_chunk_ids`, then keep the candidates passing `keepResult`,
in order. -/
def post_filter_results (s : SessionState) (results : List Result)
    (emotional_tone themes exclude_chunk_ids : List String) : List Result :=
  let all_exclusions := (get_exclusion_list s).toFinset ∪ exclude_chunk_ids.toFinset
  results.filter (keepResult all_exclusions emotional_tone themes)

/-- `QuoteSelector._build_where_filters`: only the four scalar fields
are pushed to the store; `character_type` is never added (the source
merely notes in a comment that it would be "handled in post-filtering"). -/
def build_where_filters (character_type : List String)
    (context_type chunk_type formality_level play_title : Option String) :
    List (String × String) :=
  let w : List (String × String) := []
  let w := match context_type with
    | some v => if v = "" then w else w ++ [("context", v)]
    | none => w
  let w := match chunk_type with
    | some v => if v = "" then w else w ++ [("chunk_type", v)]
    | none => w
  let w := match formality_level with
    | some v => if v = "" then w else w ++ [("formality_level", v)]
    | none => w
  let w := match play_title with
    | some v => if v = "" then w else w ++ [("play_title", v)]
    | none => w
  w

/-- `QuoteSelector.get_shakespeare_quote`. The store call
(`database.query_by_text` with the built where-filters and
`n_results = max_results * 3`) is an external collaborator; its
response enters as `candidates`. The function post-filters, truncates
to `max_results`, and leaves the session state untouched (it only reads
the exclusion list). State is threaded explicitly to make the frame
property statable. -/
def get_shakespeare_quote (s : SessionState) (args : QuoteArgs)
    (candidates : List Result) : List Result × SessionState :=
  let filtered := post_filter_results s candidates
    args.emotional_tone args.themes args.exclude_chunk_ids
  (filtered.take args.max_results, s)

/-- `QuoteSelector.select_and_mark_used`: retrieve, then mark every
returned id used with context `{'query': ..., 'chunk_text': ...}`
(`ts` is the environment-supplied timestamp of the call). -/
def select_and_mark_used (s : SessionState) (args : QuoteArgs)
    (candidates : List Result) (ts : String) : List Result × SessionState :=
  let p := get_shakespeare_quote s args candidates
  let s2 := p.1.foldl
    (fun st r => mark_used st r.chunk_id ts
      [("query", args.semantic_query), ("chunk_text", r.chunk_text)]) p.2
  (p.1, s2)

/-- One `select_and_mark_used` call of a session trace: the arguments,
the store's candidate response for the call, and the call timestamp. -/
structure CallInput where
  args : QuoteArgs
  candidates : List Result
  ts : String
  deriving DecidableEq

/-- Run a sequence of `select_and_mark_used` calls against one session,
collecting each call's returned results. -/
def runCalls (s : SessionState) : List CallInput → List (List Result) × SessionState
  | [] => ([], s)
  | c :: cs =>
    let p := select_and_mark_used s c.args c.candidates c.ts
    let q := runCalls p.2 cs
    (p.1 :: q.1, q.2)

/-- All ids returned across a sequence of `select_and_mark_used` calls,
in call order. -/
def returnedIds (s : SessionState) (calls : List CallInput) : List String :=
  ((runCalls s calls).1.map (fun rs => rs.map Result.chunk_id)).flatten

/-! ## Concrete demonstration inputs -/

def c6Candidates : List Result :=
  [{ chunk_id := "a", chunk_text := "ta", metadata := [], distance := 1 },
   { chunk_id := "b", chunk_text := "tb", metadata := [], distance := 2 }]

def c1ResultA : Result := { chunk_id := "a", chunk_text := "ta", metadata := [], distance := 1 }

def c1ResultB : Result := { chunk_id := "b", chunk_text := "tb", metadata := [], distance := 2 }

def c1Calls : List CallInput :=
  [{ args := { semantic_query := "q1" }, candidates := [c1ResultA, c1ResultB], ts := "t1" },
   { args := { semantic_query := "q2" }, candidates := [c1ResultA, c1ResultB], ts := "t2" }]

def c2Good : Chunk :=
  { chunk_id := some "c1", embedding := some [1], chunk_text := "text one", fields := [] }

def c2Bad : Chunk :=
  { chunk_id := some "c2", embedding := none, chunk_text := "text two", fields := [] }

def c4Fragment : Result :=
  { chunk_id := "c4", chunk_text := "line", metadata := [], distance := 1 }

def c9Fragment : Result :=
  { chunk_id := "c9", chunk_text := "line",
    metadata := [("character_type", "commoner")], distance := 1 }

def c10Fragment : Result :=
  { chunk_id := "f", chunk_text := "t",
    metadata := prepare_metadata [("themes", MetaValue.list ["love", "fate"])], distance := 1 }

/-! ## Helper lemmas -/

theorem setToList_toFinset (s : Finset String) : (setToList s).toFinset = s :=
  Finset.sort_toFinset _ s

theorem get_exclusion_list_fresh (sid : String) :
    get_exclusion_list (freshSession sid) = [] := by
  simp [get_exclusion_list, setToList, freshSession, Finset.sort_empty]

theorem keepResult_not_excluded {ex : Finset String} {et th : List String} {r : Result}
    (h : keepResult ex et th r = true) : r.chunk_id ∉ ex := by
  simp only [keepResult, Bool.and_eq_true, decide_eq_true_eq] at h
  exact h.1.1

theorem mem_post_filter_not_used {s : SessionState} {rs : List Result}
    {et th ex : List String} {r : Result}
    (h : r ∈ post_filter_results s rs et th ex) :
    r.chunk_id ∉ s.used_chunk_ids := by
  simp only [post_filter_results, List.mem_filter] at h
  intro hmem
  apply keepResult_not_excluded h.2
  refine Finset.mem_union_left _ ?_
  rw [get_exclusion_list, setToList_toFinset]
  exact hmem

theorem post_filter_sublist (s : SessionState) (rs : List Result)
    (et th ex : List String) :
    (post_filter_results s rs et th ex).Sublist rs :=
  List.filter_sublist rs

theorem get_quote_results_sublist (s : SessionState) (args : QuoteArgs)
    (cands : List Result) :
    ((get_shakespeare_quote s args cands).1).Sublist cands :=
  (List.take_sublist _ _).trans (post_filter_sublist s cands _ _ _)

theorem get_quote_not_used {s : SessionState} {args : QuoteArgs}
    {cands : List Result} {r : Result}
    (h : r ∈ (get_shakespeare_quote s args cands).1) :
    r.chunk_id ∉ s.used_chunk_ids := by
  have h1 : r ∈ post_filter_results s cands
      args.emotional_tone args.themes args.exclude_chunk_ids :=
    (List.take_sublist _ _).subset h
  exact mem_post_filter_not_used h1

theorem foldl_mark_used_used_chunk_ids (args : QuoteArgs) (ts : String) :
    ∀ (rs : List Result) (s : SessionState),
    (rs.foldl (fun st r => mark_used st r.chunk_id ts
        [("query", args.semantic_query), ("chunk_text", r.chunk_text)]) s).used_chunk_ids
      = s.used_chunk_ids ∪ (rs.map Result.chunk_id).toFinset := by
  intro rs
  induction rs with
  | nil => intro s; simp
  | cons r rest ih =>
    intro s
    simp only [List.foldl_cons, List.map_cons, List.toFinset_cons]
    rw [ih]
    simp [mark_used, Finset.insert_union, Finset.union_insert]

theorem select_and_mark_used_results (s : SessionState) (args : QuoteArgs)
    (cands : List Result) (ts : String) :
    (select_and_mark_used s args cands ts).1 = (get_shakespeare_quote s args cands).1 :=
  rfl

theorem select_and_mark_used_state (s : SessionState) (args : QuoteArgs)
    (cands : List Result) (ts : String) :
    (select_and_mark_used s args cands ts).2.used_chunk_ids
      = s.used_chunk_ids ∪
        (((select_and_mark_used s args cands ts).1).map Result.chunk_id).toFinset := by
  simp only [select_and_mark_used]
  rw [foldl_mark_used_used_chunk_ids]
  rfl

theorem returnedIds_nil (s : SessionState) : returnedIds s [] = [] := rfl

theorem returnedIds_cons (s : SessionState) (c : CallInput) (cs : List CallInput) :
    returnedIds s (c :: cs) =
      ((select_and_mark_used s c.args c.candidates c.ts).1.map Result.chunk_id)
        ++ returnedIds (select_and_mark_used s c.args c.candidates c.ts).2 cs := by
  simp [returnedIds, runCalls]

theorem returnedIds_not_used : ∀ (calls : List CallInput) (s : SessionState),
    ∀ i ∈ returnedIds s calls, i ∉ s.used_chunk_ids := by
  intro calls
  induction calls with
  | nil => intro s i h; simp [returnedIds_nil] at h
  | cons c cs ih =>
    intro s i h
    rw [returnedIds_cons] at h
    rcases List.mem_append.mp h with h1 | h2
    · rcases List.mem_map.mp h1 with ⟨r, hr, rfl⟩
      exact get_quote_not_used hr
    · intro hused
      apply ih _ _ h2
      rw [select_and_mark_used_state]
      exact Finset.mem_union_left _ hused

theorem returnedIds_nodup : ∀ (calls : List CallInput) (s : SessionState),
    (∀ c ∈ calls, (c.candidates.map Result.chunk_id).Nodup) →
    (returnedIds s calls).Nodup := by
  intro calls
  induction calls with
  | nil => intro s _; simp [returnedIds_nil]
  | cons c cs ih =>
    intro s h
    rw [returnedIds_cons]
    refine List.Nodup.append ?_ ?_ ?_
    · refine List.Nodup.sublist ?_ (h c (List.mem_cons_self c cs))
      exact List.Sublist.map _ (get_quote_results_sublist s c.args c.candidates)
    · exact ih _ (fun d hd => h d (List.mem_cons_of_mem c hd))
    · intro a ha1 ha2
      apply returnedIds_not_used cs _ a ha2
      rw [select_and_mark_used_state]
      refine Finset.mem_union_right _ ?_
      rw [List.mem_toFinset]
      exact ha1

/-! ## Claims -/

/-- Claim C3: in every session state reachable from a fresh session by
mark_used, reset, merge_session (with a session satisfying the same
property), save_session and load_session, `used_chunk_ids` equals
exactly the set of distinct chunk ids appearing in `usage_history`. -/
theorem session_invariant_reachable (s : SessionState) (h : ReachableSession s) :
    SessionInvariant s := by
  induction h with
  | fresh sid => simp [SessionInvariant, freshSession]
  | mark s cid ts md hs ih =>
    simp only [SessionInvariant, mark_used, List.map_append, List.toFinset_append,
      List.map_cons, List.map_nil, List.toFinset_cons, List.toFinset_nil] at ih ⊢
    rw [ih]
    simp [Finset.insert_eq, Finset.union_comm]
  | reset_step s hs ih => simp [SessionInvariant, reset]
  | merge_step s other hs hother ih =>
    simp only [SessionInvariant, merge_session, List.map_append, List.toFinset_append]
    rw [ih, hother]
  | save_load s t hs ht =>
    simp only [SessionInvariant, load_session, save_session, Option.getD_some]
    rw [setToList_toFinset]
    exact ht

/-- Witness for C3: a concrete reachable state satisfying the invariant. -/
theorem session_invariant_reachable_witness :
    SessionInvariant (mark_used (freshSession "sess") "c1" "t1" []) :=
  session_invariant_reachable _
    (ReachableSession.mark _ "c1" "t1" [] (ReachableSession.fresh "sess"))

/-- Claim C7: save_session then load_session on a fresh tracker
reproduces the original used_chunk_ids set and usage_history sequence. -/
theorem save_load_roundtrip (s : SessionState) (sid : String) :
    (load_session (freshSession sid) (save_session s)).used_chunk_ids = s.used_chunk_ids ∧
    (load_session (freshSession sid) (save_session s)).usage_history = s.usage_history := by
  constructor
  · simp [load_session, save_session, setToList_toFinset]
  · simp [load_session, save_session]

/-- Claim C8: get_shakespeare_quote never mutates the bound session:
the state after the call is the state before, for every query, filter
specification, exclusion list and cap. -/
theorem retrieve_preserves_session (s : SessionState) (args : QuoteArgs)
    (candidates : List Result) :
    (get_shakespeare_quote s args candidates).2 = s := rfl

/-- Claim C5: with result cap `max_results = N`, the returned list has
length at most N, for every candidate list the store returns. -/
theorem result_cap_respected (s : SessionState) (args : QuoteArgs)
    (candidates : List Result) :
    ((get_shakespeare_quote s args candidates).1).length ≤ args.max_results := by
  simp only [get_shakespeare_quote]
  exact List.length_take_le _ _

/-- Claim C6: the result list is a subsequence of the store's candidate
list in the same relative order (no re-ranking), hence non-decreasing in
distance whenever the candidates are. -/
theorem order_preserved (s : SessionState) (args : QuoteArgs) (candidates : List Result)
    (h : candidates.Pairwise (fun a b => a.distance ≤ b.distance)) :
    ((get_shakespeare_quote s args candidates).1).Sublist candidates ∧
    ((get_shakespeare_quote s args candidates).1).Pairwise
      (fun a b => a.distance ≤ b.distance) :=
  ⟨get_quote_results_sublist s args candidates,
   List.Pairwise.sublist (get_quote_results_sublist s args candidates) h⟩

/-- Witness for C6 at a concrete sorted candidate list. -/
theorem order_preserved_witness :
    c6Candidates.Pairwise (fun a b => a.distance ≤ b.distance) ∧
    (((get_shakespeare_quote (freshSession "s6") { semantic_query := "q" }
        c6Candidates).1).Sublist c6Candidates ∧
     ((get_shakespeare_quote (freshSession "s6") { semantic_query := "q" }
        c6Candidates).1).Pairwise (fun a b => a.distance ≤ b.distance)) :=
  ⟨by decide, order_preserved _ _ _ (by decide)⟩

/-- Claim C1: starting from an empty session, the ids returned across
any sequence of select_and_mark_used calls are pairwise distinct — no
id in two calls' results and none twice within one call — given that
each store response lists each stored fragment at most once (the store
contract: candidates carry duplicate-free ids). -/
theorem no_repeat_within_session (sid : String) (calls : List CallInput)
    (h : ∀ c ∈ calls, (c.candidates.map Result.chunk_id).Nodup) :
    (returnedIds (freshSession sid) calls).Nodup :=
  returnedIds_nodup calls (freshSession sid) h

/-- Witness for C1: two calls over the same two-candidate store
response; all returned ids are distinct. -/
theorem no_repeat_within_session_witness :
    (∀ c ∈ c1Calls, (c.candidates.map Result.chunk_id).Nodup) ∧
    (returnedIds (freshSession "sess1") c1Calls).Nodup :=
  ⟨by decide, no_repeat_within_session "sess1" c1Calls (by decide)⟩

/-- A truthy chunk contributes exactly its id at the end of the
accumulated `ids` list. -/
theorem addChunkStep_ids_of_truthy {c : Chunk} (h : chunkTruthy c = true) (acc : AddAcc) :
    (addChunkStep acc c).ids = acc.ids ++ [c.chunk_id.getD ""] := by
  rcases hc : c.chunk_id with _ | cid
  · simp [chunkTruthy, hc] at h
  · rcases he : c.embedding with _ | emb
    · simp [chunkTruthy, hc, he] at h
    · simp only [chunkTruthy, hc, he, Option.getD_some, Bool.and_eq_true,
        decide_eq_true_eq] at h
      simp [addChunkStep, hc, he, h.1, h.2]

/-- A falsy chunk is skipped: the accumulated `ids` list is unchanged. -/
theorem addChunkStep_ids_of_falsy {c : Chunk} (h : ¬ chunkTruthy c = true) (acc : AddAcc) :
    (addChunkStep acc c).ids = acc.ids := by
  rcases hc : c.chunk_id with _ | cid
  · simp [addChunkStep, hc]
  · rcases he : c.embedding with _ | emb
    · simp [addChunkStep, hc, he]
    · simp only [chunkTruthy, hc, he, Option.getD_some, Bool.and_eq_true,
        decide_eq_true_eq, not_and_or, not_not] at h
      rcases h with h | h
      · simp [addChunkStep, hc, he, h]
      · simp [addChunkStep, hc, he, h]

theorem foldl_addChunkStep_ids :
    ∀ (l : List Chunk) (acc : AddAcc),
    (l.foldl addChunkStep acc).ids
      = acc.ids ++ (l.filter chunkTruthy).map (fun c => c.chunk_id.getD "") := by
  intro l
  induction l with
  | nil => intro acc; simp
  | cons c cs ih =>
    intro acc
    simp only [List.foldl_cons, List.filter_cons]
    by_cases h : chunkTruthy c = true
    · rw [if_pos h, ih, addChunkStep_ids_of_truthy h, List.map_cons]
      simp
    · rw [if_neg h, ih, addChunkStep_ids_of_falsy h]

/-- With no exclusions, no tone filter and a single requested theme,
the keep decision is exactly membership of the requested value in the
comma-split of the stored themes field. -/
theorem keepResult_single_theme (v : String) (r : Result) :
    keepResult ∅ [] [v] r = true ↔ v ∈ resultFieldValues r.metadata "themes" := by
  simp [keepResult]

/-- Splitting the comma-join of a non-empty list of comma-free strings
recovers the list. -/
theorem splitComma_joinComma (l : List String) (hl : l ≠ [])
    (hfree : ∀ x ∈ l, ',' ∉ x.data) :
    splitComma (joinComma l) = l := by
  have h1 : ∀ cs ∈ l.map String.data, ',' ∉ cs := by
    intro cs hcs
    rcases List.mem_map.mp hcs with ⟨x, hx, rfl⟩
    exact hfree x hx
  have h2 : l.map String.data ≠ [] := by simpa using hl
  show ((List.intercalate [','] (l.map String.data)).splitOn ',').map
      (fun cs => String.mk cs) = l
  rw [List.splitOn_intercalate (l.map String.data) ',' h1 h2, List.map_map]
  have hid : ((fun cs => (⟨cs⟩ : String)) ∘ String.data) = id := by
    funext s
    rfl
  rw [hid, List.map_id]

/-- Counterexample for C2 as stated: a batch holding one valid chunk
and one chunk with a missing embedding. The claim says the whole batch
fails and nothing is written; `add_chunks` instead writes the valid
chunk alone — a non-empty proper subset of the batch — and raises no
error (the skip only prints a warning). -/
theorem add_chunks_not_atomic :
    c2Bad.embedding = none ∧
    (add_chunks [c2Good, c2Bad]).ids = ["c1"] ∧
    (add_chunks [c2Good, c2Bad]).ids ≠ [] := by
  decide

/-- Claim C2 (amended): `add_chunks` skips exactly the records whose
`chunk_id` or `embedding` is missing (or falsy) and inserts the
remaining records in order; a mixed batch is partially applied and no
error is raised. -/
theorem add_chunks_skips_invalid (chunks : List Chunk) :
    (add_chunks chunks).ids
      = (chunks.filter chunkTruthy).map (fun c => c.chunk_id.getD "") := by
  rw [add_chunks, foldl_addChunkStep_ids]
  rfl

/-- Counterexample for C4 as stated: the post-filter keeps a fragment
that lacks the `themes` metadata field entirely when the non-empty
requested set is [''] — the missing field reads as the empty string,
which comma-splits to [''], so '' matches — where the claim says a
fragment lacking the field is rejected by every post-filter naming it. -/
theorem post_filter_missing_field_kept :
    List.lookup "themes" c4Fragment.metadata = none ∧
    ([""] : List String) ≠ [] ∧
    post_filter_results (freshSession "s4") [c4Fragment] [] [""] [] = [c4Fragment] := by
  refine ⟨rfl, by decide, ?_⟩
  simp only [post_filter_results]
  rw [get_exclusion_list_fresh]
  decide

/-- Claim C4 (amended): the post-filter keeps a candidate iff its id is
outside the exclusion set (session ∪ caller exclusions) and, for each
non-empty requested multi-valued filter, some requested value occurs in
the comma-split of the fragment's stored field value, the missing field
being read as the empty string — so a fragment lacking the field is
rejected by every post-filter that names it unless the requested set
contains the empty string. -/
theorem post_filter_keep_iff (s : SessionState) (results : List Result)
    (et th ex : List String) (r : Result) :
    r ∈ post_filter_results s results et th ex ↔
      r ∈ results ∧
      r.chunk_id ∉ s.used_chunk_ids ∪ ex.toFinset ∧
      (et ≠ [] → ∃ v ∈ et, v ∈ resultFieldValues r.metadata "emotional_tone") ∧
      (th ≠ [] → ∃ v ∈ th, v ∈ resultFieldValues r.metadata "themes") := by
  simp only [post_filter_results, List.mem_filter, keepResult, Bool.and_eq_true,
    Bool.or_eq_true, List.any_eq_true, decide_eq_true_eq, List.isEmpty_iff,
    get_exclusion_list, setToList_toFinset]
  constructor
  · rintro ⟨hm, ⟨hex, h1⟩, h2⟩
    exact ⟨hm, hex, fun hne => h1.resolve_left hne, fun hne => h2.resolve_left hne⟩
  · rintro ⟨hm, hex, h1, h2⟩
    refine ⟨hm, ⟨hex, ?_⟩, ?_⟩
    · by_cases h : et = []
      · exact Or.inl h
      · exact Or.inr (h1 h)
    · by_cases h : th = []
      · exact Or.inl h
      · exact Or.inr (h2 h)

/-- Claim C9, evaluated at the failing input: a request with
`character_type = ["royalty"]` over a store response holding a fragment
whose metadata says `character_type = "commoner"`. The built where
filter never names `character_type` and the post-filter ignores it, so
the mismatching fragment is returned anyway — the code never enforces
the documented client-side character_type predicate. -/
theorem character_type_not_enforced :
    "character_type" ∉ (build_where_filters ["royalty"] none none none none).map Prod.fst ∧
    (get_shakespeare_quote (freshSession "s9")
      { semantic_query := "q", character_type := ["royalty"] } [c9Fragment]).1
      = [c9Fragment] := by
  refine ⟨by decide, ?_⟩
  simp only [get_shakespeare_quote, post_filter_results]
  rw [get_exclusion_list_fresh]
  decide

/-- Counterexample for C10 as stated: a fragment whose themes list is
empty is stored with the joined value '' (the comma-join of no
elements), which the post-filter splits back to [''], so the requested
value '' matches — where the claim says an empty original list matches
no requested value on that field. -/
theorem join_split_empty_matches :
    prepare_metadata [("themes", MetaValue.list [])] = [("themes", "")] ∧
    keepResult ∅ [] [""]
      { chunk_id := "f0", chunk_text := "t0",
        metadata := prepare_metadata [("themes", MetaValue.list [])],
        distance := 1 } = true := by
  refine ⟨by decide, ?_⟩
  decide

/-- Claim C10 (amended): storing a multi-valued field joins it into one
comma-separated string and the post-filter splits it back. For a
non-empty list of non-empty comma-free strings the round trip is the
identity: a requested value matches iff it was an element of the
original list. For the empty original list, the stored value is the
empty string, so exactly the requested value '' matches. -/
theorem join_split_roundtrip (l : List String) (v : String)
    (hne : ∀ x ∈ l, x ≠ "") (hfree : ∀ x ∈ l, ',' ∉ x.data) :
    (l ≠ [] →
      (keepResult ∅ [] [v]
        { chunk_id := "f", chunk_text := "t",
          metadata := prepare_metadata [("themes", MetaValue.list l)],
          distance := 1 } = true ↔ v ∈ l)) ∧
    (l = [] →
      (keepResult ∅ [] [v]
        { chunk_id := "f", chunk_text := "t",
          metadata := prepare_metadata [("themes", MetaValue.list l)],
          distance := 1 } = true ↔ v = "")) := by
  have hmd : resultFieldValues (prepare_metadata [("themes", MetaValue.list l)]) "themes"
      = splitComma (joinComma l) := rfl
  constructor
  · intro hl
    rw [keepResult_single_theme, hmd, splitComma_joinComma l hl hfree]
  · intro hl
    subst hl
    rw [keepResult_single_theme, hmd]
    have hsplit : splitComma (joinComma []) = [""] := rfl
    rw [hsplit, List.mem_singleton]

/-- Witness for C10 at the concrete list ["love", "fate"] and requested
value "fate": the stored-and-split fragment matches. -/
theorem join_split_roundtrip_witness :
    (∀ x ∈ (["love", "fate"] : List String), x ≠ "") ∧
    (∀ x ∈ (["love", "fate"] : List String), ',' ∉ x.data) ∧
    keepResult ∅ [] ["fate"] c10Fragment = true := by
  refine ⟨by decide, by decide, ?_⟩
  exact ((join_split_roundtrip ["love", "fate"] "fate" (by decide) (by decide)).1
    (by decide)).mpr (by decide)
